import Mathlib

/-!
# Verification of the LevelDB data-proxy adapter (`src/index.js`)

A shallow embedding of the `NGNX.DATA.LevelDbProxy` class: JavaScript values
are modelled by an inductive `JSValue`, the flat LevelDB keyspace by an
ordered association list of raw strings, and the adapter's methods
(`constructor`, `init`, `format`, `save`, `fetch`, `parse`, `getFieldType`,
`op`) by executable Lean functions.  The source file contains two revisions
of the class separated by a document marker; the later revision (the one
with `getFieldType`, the `leveldown.destroy` pre-clear in `save`, and the
model-mode `fetch` branch) is the one embedded here.

Conventions:
* JavaScript numbers are modelled by `Int`; the only numeric code in the
  adapter is `parseInt`/`parseFloat` round-tripping, and no claim involves
  non-integral values (floating point is not representable faithfully).
* Storage cells hold the raw byte string of a value: levelup serializes a
  `put` using the op's `valueEncoding` (`JSON.stringify` for `json`,
  `String(v)` for everything else, since unrecognized encodings fall back
  to utf8), and a `get` with a scalar encoding returns those bytes as a
  string.  The engine's `json` *decode* direction (`JSON.parse`) is part
  of the external storage engine and is passed in as a function argument
  where needed.
-/

/-- A JavaScript (JSON-shaped) value: `null`, booleans, numbers (integral
only, see header), strings, arrays and plain objects.  Objects keep the
JS insertion order of their keys. -/
inductive JSValue where
  | vNull : JSValue
  | vBool : Bool → JSValue
  | vNum : Int → JSValue
  | vStr : String → JSValue
  | vArr : List JSValue → JSValue
  | vObj : List (String × JSValue) → JSValue

/-- A JS object: ordered association list of fields. -/
abbrev JsObj := List (String × JSValue)

/-- JavaScript truthiness (`if (x)`): `null`, `false`, `0` and `''` are
falsy, every object and array is truthy. -/
def jsTruthy : JSValue → Bool
  | JSValue.vNull => false
  | JSValue.vBool b => b
  | JSValue.vNum n => n != 0
  | JSValue.vStr s => s != ""
  | JSValue.vArr _ => true
  | JSValue.vObj _ => true

/-- Property read `o[k]` on a JS object; on anything else the access
yields `undefined` (`none`).  (On `null` JS would throw; no operation of
the adapter reaches that case with `null`.) -/
def jsGetProp : JSValue → String → Option JSValue
  | JSValue.vObj fields, k => fields.lookup k
  | _, _ => none

/-- Property write `o[k] = v` on a JS object: replaces the value in place
when the key exists (keeping its position) and appends otherwise. -/
def objSet : JsObj → String → JSValue → JsObj
  | [], k, v => [(k, v)]
  | (k0, v0) :: rest, k, v =>
    if k0 = k then (k0, v) :: rest else (k0, v0) :: objSet rest k v

/-- Property read on a JS object, by key. -/
def objLookup : JsObj → String → Option JSValue
  | [], _ => none
  | (k0, v0) :: rest, k => if k0 = k then some v0 else objLookup rest k

/-! ## Decimal printing and parsing of numbers -/

/-- The decimal digit characters, as produced by JS number-to-string
conversion. -/
def digitChar (d : Nat) : Char :=
  match d with
  | 0 => '0' | 1 => '1' | 2 => '2' | 3 => '3' | 4 => '4'
  | 5 => '5' | 6 => '6' | 7 => '7' | 8 => '8' | _ => '9'

/-- Decimal digits of `n`, most significant first, prepended to `acc`. -/
def natToCharsAux (n : Nat) (acc : List Char) : List Char :=
  if n < 10 then digitChar n :: acc
  else natToCharsAux (n / 10) (digitChar (n % 10) :: acc)
termination_by n
decreasing_by exact Nat.div_lt_self (by omega) (by omega)

/-- Decimal digits of `n`, most significant first. -/
def natToChars (n : Nat) : List Char := natToCharsAux n []

/-- Conversion `String(n)` for an (integral) JS number. -/
def jsNumToString (n : Int) : String :=
  if n < 0 then String.mk ('-' :: natToChars n.natAbs)
  else String.mk (natToChars n.toNat)

/-- Value of a decimal digit string (`c.toNat - 48` per character, as a
base-10 fold). -/
def parseDigitsNat (ds : List Char) : Nat :=
  ds.foldl (fun a c => a * 10 + (c.toNat - 48)) 0

/-- The whitespace characters skipped by `parseInt` / matched by the
regex class `\s` (the common ASCII ones; the Unicode space characters are
not produced by any value in this development). -/
def jsWhitespaceChar (c : Char) : Bool :=
  c = ' ' || c = '\t' || c = '\n' || c = '\r' || c = '\x0b' || c = '\x0c'

/-- Model of `s.trim()`: strip leading and trailing whitespace. -/
def trimJS (s : String) : String :=
  String.mk (((s.data.dropWhile jsWhitespaceChar).reverse.dropWhile jsWhitespaceChar).reverse)

/-- Model of `s.split('.')` (single-character string separator): the segments
between the dots, in order; always non-empty. -/
def splitDotAux : List Char → List Char → List String
  | [], acc => [String.mk acc.reverse]
  | c :: rest, acc =>
    if c = '.' then String.mk acc.reverse :: splitDotAux rest []
    else splitDotAux rest (c :: acc)

/-- The call `key.split('.')`. -/
def jsSplitDot (s : String) : List String := splitDotAux s.data []

/-- Model of `c.toLowerCase()` for one character (ASCII case map, the only one the
adapter's type names exercise). -/
def charLowerJS (c : Char) : Char :=
  if 65 ≤ c.toNat ∧ c.toNat ≤ 90 then Char.ofNat (c.toNat + 32) else c

/-- Model of `s.toLowerCase()`. -/
def toLowerJS (s : String) : String := String.mk (s.data.map charLowerJS)

/-- The digit run of `parseInt` after sign handling: the longest prefix
of decimal digits, `none` (`NaN`) when there is none. -/
def parseIntDigits (cs : List Char) : Option Nat :=
  let ds := cs.takeWhile Char.isDigit
  if ds.isEmpty then none else some (parseDigitsNat ds)

/-- Model of `parseInt(s, 10)`: skip leading whitespace, optional sign, then the
longest prefix of decimal digits; `none` models `NaN` (no digits). -/
def parseIntJS (s : String) : Option Int :=
  let cs := s.data.dropWhile jsWhitespaceChar
  if cs.take 1 = ['-'] then (parseIntDigits cs.tail).map (fun m => -(Int.ofNat m))
  else if cs.take 1 = ['+'] then (parseIntDigits cs.tail).map Int.ofNat
  else (parseIntDigits cs).map Int.ofNat

/-! ## String conversions -/

mutual
/-- Conversion `String(v)` of a JS value. -/
def jsToString : JSValue → String
  | JSValue.vNull => "null"
  | JSValue.vBool b => if b then "true" else "false"
  | JSValue.vNum n => jsNumToString n
  | JSValue.vStr s => s
  | JSValue.vObj _ => "[object Object]"
  | JSValue.vArr l => jsArrToString l

/-- Model of `Array.prototype.toString`: elements joined by `','`, `null` elements
printing as the empty string. -/
def jsArrToString : List JSValue → String
  | [] => ""
  | [JSValue.vNull] => ""
  | [v] => jsToString v
  | JSValue.vNull :: rest => "," ++ jsArrToString rest
  | v :: rest => jsToString v ++ "," ++ jsArrToString rest
end

/-- Escape of one character inside a JSON string literal (quote and
backslash; control characters do not occur in this development). -/
def jsonEscapeChar (c : Char) : String :=
  if c = '"' then "\\\"" else if c = '\\' then "\\\\" else String.singleton c

/-- A JSON string literal. -/
def jsonQuote (s : String) : String :=
  "\"" ++ String.join (s.data.map jsonEscapeChar) ++ "\""

mutual
/-- Model of `JSON.stringify` of a JS value. -/
def jsonStringify : JSValue → String
  | JSValue.vNull => "null"
  | JSValue.vBool b => if b then "true" else "false"
  | JSValue.vNum n => jsNumToString n
  | JSValue.vStr s => jsonQuote s
  | JSValue.vArr l => "[" ++ jsonStringifyElems l ++ "]"
  | JSValue.vObj f => "\x7b" ++ jsonStringifyFields f ++ "\x7d"

/-- Array elements of a `JSON.stringify` output, comma separated. -/
def jsonStringifyElems : List JSValue → String
  | [] => ""
  | [v] => jsonStringify v
  | v :: rest => jsonStringify v ++ "," ++ jsonStringifyElems rest

/-- Object fields of a `JSON.stringify` output, comma separated. -/
def jsonStringifyFields : List (String × JSValue) → String
  | [] => ""
  | [(k, v)] => jsonQuote k ++ ":" ++ jsonStringify v
  | (k, v) :: rest => jsonQuote k ++ ":" ++ jsonStringify v ++ "," ++ jsonStringifyFields rest
end

/-- Test `s.indexOf(sub) >= 0`: does `sub` occur as a contiguous substring? -/
def hasSubstr (pat : List Char) : List Char → Bool
  | [] => pat.isEmpty
  | c :: rest => pat.isPrefixOf (c :: rest) || hasSubstr pat rest

/-! ## The storage model -/

/-- The flat LevelDB keyspace: cells ordered by key, each holding the raw
byte string of its value (see the header for the encoding model). -/
abbrev Storage := List (String × String)

/-- Insert-or-overwrite keeping the keyspace ordered by key. -/
def storagePut : Storage → String → String → Storage
  | [], k, v => [(k, v)]
  | (k0, v0) :: rest, k, v =>
    if k < k0 then (k, v) :: (k0, v0) :: rest
    else if k = k0 then (k, v) :: rest
    else (k0, v0) :: storagePut rest k v

/-- Raw value stored under a key, if present. -/
def storageLookup (k : String) : Storage → Option String
  | [] => none
  | (k0, v0) :: rest => if k0 = k then some v0 else storageLookup k rest

/-- One operation of a levelup `batch` call, as built by `format`. -/
structure BatchOp where
  type : String
  key : String
  value : JSValue
  keyEncoding : String
  valueEncoding : String

/-- Default batch operation (used only for indexed access in statements). -/
def defaultBatchOp : BatchOp :=
  { type := "", key := "", value := JSValue.vNull, keyEncoding := "", valueEncoding := "" }

/-- Raw byte string a `put` stores for an op: `JSON.stringify` under the
`json` value encoding, `String(value)` (utf8 fallback) otherwise. -/
def rawBytes (op : BatchOp) : String :=
  if op.valueEncoding = "json" then jsonStringify op.value else jsToString op.value

/-- Apply a levelup `batch` list of put operations to the keyspace in
order. -/
def applyBatch (st : Storage) (ops : List BatchOp) : Storage :=
  ops.foldl (fun s op => storagePut s op.key (rawBytes op)) st

/-! ## The proxy object -/

/-- The adapter's own state: the configured directory (a constant
property) and the private `type` property, `null` until `init` runs. -/
structure LevelDbProxy where
  directory : String
  type : Option String

/-- The constructor's `config` argument: either a string (a directory
path) or a configuration object with an optional `directory` property. -/
inductive DbConfig where
  | str : String → DbConfig
  | obj : Option String → DbConfig

/-- The `constructor (config)` body: `config = config || {}` (an absent
argument or an empty — falsy — string becomes `{}`), a string config
becomes `{ directory: config }`, and a falsy `config.directory` (absent
or the empty string) throws `'No database configuration detected.'`;
otherwise the directory is stored as a constant property and `type`
starts out `null`.  (The `pathReadable` check only prints a warning.) -/
def buildProxy (config : Option DbConfig) : Except String LevelDbProxy :=
  let dir : Option String :=
    match config with
    | none => none
    | some (DbConfig.str s) => if s = "" then none else some s
    | some (DbConfig.obj d) => d
  match dir with
  | none => Except.error "No database configuration detected."
  | some d =>
    if d = "" then Except.error "No database configuration detected."
    else Except.ok { directory := d, type := none }

/-- Method `init (datastore)`: fixes the operating mode from the host's kind
(`NGN.DATA.Store` instance or not) — the only write to `type` anywhere in
the class. -/
def init (p : LevelDbProxy) (hostIsStore : Bool) : LevelDbProxy :=
  { p with type := some (if hostIsStore then "store" else "model") }

/-- Method `op (fn)`: opens a levelup handle on `this.proxy.directory`, hands it
to `fn` together with a closer.  It reads the directory and writes no
property of the proxy; the handle lifecycle itself is storage-engine
territory. -/
def op (p : LevelDbProxy) : LevelDbProxy × String :=
  (p, p.directory)

/-! ## `format`: flattening into batch operations -/

/-- The key of a store-mode record op:
`NGN.coalesce(item[this.idAttribute], index).toString()` — the record's
identity value unless it is `null`/absent, else the ordinal index. -/
def recordKey (idAttr : String) (item : JSValue) (index : Nat) : String :=
  match jsGetProp item idAttr with
  | some JSValue.vNull => jsNumToString index
  | some v => jsToString v
  | none => jsNumToString index

/-- The op `format` emits for one field of a (model-mode) data object:
the trimmed attribute name as key, `'#NIL'` in place of a `null` value,
and a value encoding of `json` for arrays and `typeof`-objects (which
includes `null`) or the `typeof` name for the scalar primitives. -/
def formatField (kv : String × JSValue) : BatchOp :=
  { type := "put"
    key := trimJS kv.1
    value := match kv.2 with | JSValue.vNull => JSValue.vStr "#NIL" | v => v
    keyEncoding := "string"
    valueEncoding :=
      match kv.2 with
      | JSValue.vArr _ => "json"
      | JSValue.vObj _ => "json"
      | JSValue.vNull => "json"
      | JSValue.vBool _ => "boolean"
      | JSValue.vNum _ => "number"
      | JSValue.vStr _ => "string" }

/-- Method `format (data, namespace = '', separator = '.')` (the two defaulted
parameters are never read by the body).  Falsy data yields no ops.  An
array (store data) yields one `put` per record — key `recordKey`, value
the whole record, `json`-encoded.  An object (model data) yields one
`put` per attribute via `formatField`.  (`Object.keys` of a primitive
has no enumerable own properties apart from string indices, which no
host data exercises; modelled as no ops.) -/
def format (idAttr : String) (data : Option JSValue)
    (ns : String := "") (sep : String := ".") : List BatchOp :=
  match data with
  | none => []
  | some d =>
    if jsTruthy d then
      match d with
      | JSValue.vArr items =>
        items.enum.map fun p =>
          { type := "put"
            key := recordKey idAttr p.2 p.1
            value := p.2
            keyEncoding := "string"
            valueEncoding := "json" }
      | JSValue.vObj fields => fields.map formatField
      | _ => []
    else []

/-! ## `save`: destroy, then batch -/

/-- Method `save (callback)`: `require('leveldown').destroy(this.directory, …)`
wipes the storage location unconditionally (both modes — the body never
consults `this.type`), then one `db.batch(this.format(this.data))` writes
every flattened op into the now-empty keyspace.  The callback/`save`
event are asynchronous signalling, not state. -/
def save (p : LevelDbProxy) (idAttr : String) (data : JSValue)
    (st : Storage) : LevelDbProxy × Storage :=
  let destroyed : Storage := []
  (p, applyBatch destroyed (format idAttr (some data)))

/-! ## `getFieldType`: declared-type resolution -/

/-- Rightmost-`()` capture used by `/function\s(.*)\(\).*/`: within the
given line, the prefix standing before the last occurrence of `()`. -/
def lastParenSplit : List Char → Option (List Char)
  | [] => none
  | [_] => none
  | a :: b :: rest =>
    match lastParenSplit (b :: rest) with
    | some cap => some (a :: cap)
    | none => if a = '(' ∧ b = ')' then some [] else none

/-- Try `/function\s(.*)\(\).*/` anchored at the start of the input: the
literal `function`, one `\s` character, then a greedy dot-capture up to
the last `()` on the same line (`.` does not match a newline). -/
def matchFunctionAt : List Char → Option (List Char)
  | 'f' :: 'u' :: 'n' :: 'c' :: 't' :: 'i' :: 'o' :: 'n' :: w :: rest =>
    if jsWhitespaceChar w then lastParenSplit (rest.takeWhile (fun c => c ≠ '\n'))
    else none
  | _ => none

/-- Model of `pattern.exec(s)` for `pattern = /function\s(.*)\(\).*/gi` on a fresh
regex (leftmost match, greedy capture): group 1 of the first position at
which the whole pattern matches. -/
def execFunctionPattern : List Char → Option (List Char)
  | [] => none
  | c :: rest =>
    match matchFunctionAt (c :: rest) with
    | some cap => some cap
    | none => execFunctionPattern rest

/-- Method `getFieldType (field)`.  `joins` models the host's relationship map
(`this.joins`), `fieldTypeStr field` the string
`this.fields[field].type.toString()`.  A relationship field keeps the
initial `'json'`; otherwise the regex capture, coalesced with `'string'`
when the exec returns `null`, lowercased; finally `'array'` maps to
`'json'`. -/
def getFieldType (joins : List String) (fieldTypeStr : String → String)
    (field : String) : String :=
  let t :=
    if joins.contains field then "json"
    else
      match execFunctionPattern (fieldTypeStr field).data with
      | none => "string"
      | some cap => toLowerJS (String.mk cap)
  if t = "array" then "json" else t

/-! ## `fetch`: decoding -/

/-- Model-mode per-key decode (the body of the `db.get` callback): when
the declared type is scalar, a raw value *containing* `'#NIL'` becomes
`null`; otherwise booleans compare against `'true'` and numbers go
through `parseInt`/`parseFloat` (`parseFloat` — a raw value containing
`'.'` — is outside the integral model, as is a `NaN` `parseInt` result:
both are `none`).  Any other declared type means the storage engine
already `JSON.parse`d the raw bytes; that engine-side decode is the
`jsonDecode` argument (`none` models a parse throw). -/
def fetchDecode (jsonDecode : String → Option JSValue) (t : String)
    (raw : String) : Option JSValue :=
  if t = "string" ∨ t = "number" ∨ t = "boolean" then
    if hasSubstr ("#NIL".data) raw.data then some JSValue.vNull
    else if t = "boolean" then some (JSValue.vBool (raw = "true"))
    else if t = "number" then
      if hasSubstr (".".data) raw.data then none
      else (parseIntJS raw).map JSValue.vNum
    else some (JSValue.vStr raw)
  else jsonDecode raw

/-- What the host receives at the end of a `fetch`: store mode hands the
streamed dataset to `this.reload`, model mode hands the decoded data
object to `this.load`. -/
inductive FetchEffect where
  | reload : List JSValue → FetchEffect
  | load : JsObj → FetchEffect

/-- Model-mode data assembly: a `createKeyStream` enumerates the keys in
order, each key's declared type is resolved with `getFieldType`, one
`get` per key decodes per `fetchDecode` into `data[item.key]`; a `get`
or decode failure throws and aborts the fetch. -/
def fetchModelData (st : Storage) (joins : List String)
    (fieldTypeStr : String → String) (jsonDecode : String → Option JSValue) :
    Except String JsObj :=
  (st.map Prod.fst).foldlM (fun acc k =>
    match storageLookup k st with
    | none => Except.error "NotFound"
    | some raw =>
      match fetchDecode jsonDecode (getFieldType joins fieldTypeStr k) raw with
      | some v => Except.ok (objSet acc k v)
      | none => Except.error "decode") []

/-- Method `fetch (callback)`.  Store mode: a `createValueStream` scan collects
the engine-decoded values in key order (`streamed`) and passes that
dataset directly to `this.reload` — `parse` is never called.  Model
mode: `fetchModelData` assembles the per-key decoded object, which goes
to `this.load`. -/
def fetch (p : LevelDbProxy) (streamed : List JSValue) (st : Storage)
    (joins : List String) (fieldTypeStr : String → String)
    (jsonDecode : String → Option JSValue) :
    Except String (LevelDbProxy × FetchEffect) :=
  if p.type = some "store" then
    Except.ok (p, FetchEffect.reload streamed)
  else
    (fetchModelData st joins fieldTypeStr jsonDecode).map
      (fun data => (p, FetchEffect.load data))

/-! ## `parse`: unflattening (built and then discarded) -/

/-- One stored entry as seen by `parse`: a dotted key and a value. -/
structure StoreItem where
  key : String
  value : JSValue

/-- The mutable locals of `parse`'s `forEach` loop. -/
structure ParseState where
  currentId : Option String
  resultset : List JsObj
  currentData : JsObj

/-- The `while (keys.length > 0)` loop of `parse`: each remaining segment
is assigned on the *same* object `o` (the loop never rebinds `key` to the
sub-object it creates), as `key[newkey] = key[newkey] || (last ? value :
{})` — a truthy existing entry is kept, otherwise the value (for the last
segment) or a fresh `{}` is stored. -/
def assignChain (o : JsObj) : List String → JSValue → JsObj
  | [], _ => o
  | nk :: more, v =>
    let newVal :=
      match objLookup o nk with
      | some w => if jsTruthy w then w else (if more.isEmpty then v else JSValue.vObj [])
      | none => if more.isEmpty then v else JSValue.vObj []
    assignChain (objSet o nk newVal) more v

/-- The leading identity segment of a stored entry's key
(`item.key.split('.')` then `shift()`; `split` never yields an empty
list, so the default of `headD` is unreachable). -/
def leadingSeg (item : StoreItem) : String :=
  (jsSplitDot item.key).headD ""

/-- The grouping block of the loop (`if (currentId !== id) { … }`): on an
identity change, flush the previous accumulator into `resultset` (unless
`currentId` is still `null`) and start a fresh accumulator carrying only
`idAttribute`. -/
def stepGroup (idAttr : String) (st : ParseState) (id : String) : ParseState :=
  if st.currentId = some id then st
  else
    { currentId := some id
      resultset := st.resultset ++
        (match st.currentId with | none => [] | some _ => [st.currentData])
      currentData := objSet [] idAttr (JSValue.vStr id) }

/-- The assignment block of the loop: assign the decoded value along the
remaining segments.  A key with no remaining segment assigns at the
property `"undefined"` (`keys.shift()` on an empty array).  With two or
more remaining segments, `currentData[key] = currentData[key] || {}`
followed by the `while` loop (`assignChain`): a truthy non-object
existing entry makes the loop's first property write throw a strict-mode
`TypeError` (`Except.error`); a truthy array accepts the writes but they
are invisible in this JSON value model (the array is kept unchanged). -/
def stepAssign (st1 : ParseState) (rest : List String) (v : JSValue) :
    Except String ParseState :=
  match rest with
  | [] => Except.ok { st1 with currentData := objSet st1.currentData "undefined" v }
  | [k] => Except.ok { st1 with currentData := objSet st1.currentData k v }
  | k :: more =>
    match objLookup st1.currentData k with
    | some w =>
      if jsTruthy w then
        match w with
        | JSValue.vObj o =>
          Except.ok { st1 with
            currentData := objSet st1.currentData k (JSValue.vObj (assignChain o more v)) }
        | JSValue.vArr a =>
          Except.ok { st1 with
            currentData := objSet st1.currentData k (JSValue.vArr a) }
        | _ => Except.error "TypeError"
      else
        Except.ok { st1 with
          currentData := objSet st1.currentData k (JSValue.vObj (assignChain [] more v)) }
    | none =>
      Except.ok { st1 with
        currentData := objSet st1.currentData k (JSValue.vObj (assignChain [] more v)) }

/-- One iteration of `parse`'s `forEach`: split the key, shift the
identity segment (`stepGroup`), then assign the decoded value along the
remaining segments (`stepAssign`). -/
def stepParse (idAttr : String) (st : ParseState) (item : StoreItem) :
    Except String ParseState :=
  let segs := jsSplitDot item.key
  stepAssign (stepGroup idAttr st (segs.headD "")) segs.tail item.value

/-- The `resultset` that `parse` builds internally (and then discards):
the `forEach` fold followed by the trailing flush of a non-empty
accumulator.  `idAttr` models `base.idAttribute` of the freshly
instantiated model. -/
def parseResultset (idAttr : String) (dataset : List StoreItem) :
    Except String (List JsObj) := do
  let st ← dataset.foldlM (stepParse idAttr) ⟨none, [], []⟩
  pure (st.resultset ++ (if st.currentData.isEmpty then [] else [st.currentData]))

/-- Method `parse (dataset)`: in store mode it builds `parseResultset` and drops
it on the floor (no return statement, no assignment to the host or the
proxy); in model mode it does nothing at all.  A `TypeError` raised while
building the resultset would propagate. -/
def parse (p : LevelDbProxy) (idAttr : String) (dataset : List StoreItem) :
    Except String LevelDbProxy :=
  if p.type = some "store" then
    (parseResultset idAttr dataset).map (fun _ => p)
  else Except.ok p

/-! ## Specification-side definitions used by the theorems -/

/-- The run of distinct consecutive identities in a list of leading
segments, starting from a current identity (`consecGroups none ids` is
the sequence of group representatives, one per maximal run of equal
consecutive elements). -/
def consecGroups : Option String → List String → List String
  | _, [] => []
  | cur, x :: rest =>
    if cur = some x then consecGroups cur rest
    else x :: consecGroups (some x) rest

/-- Loop invariant of `parse`'s `forEach`: before the first group starts
the accumulator is empty, and afterwards the accumulator always carries
the current group's identity under `idAttr` and is non-empty. -/
def ParseInv (idAttr : String) (st : ParseState) : Prop :=
  (st.currentId = none → st.resultset = [] ∧ st.currentData = []) ∧
  (∀ c, st.currentId = some c →
    objLookup st.currentData idAttr = some (JSValue.vStr c) ∧ st.currentData ≠ [])

/-- The identity values of everything `parse` has finished or is still
accumulating: the flushed records' `idAttr` entries followed by the
pending group's identity. -/
def flushIds (idAttr : String) (st : ParseState) : List (Option JSValue) :=
  st.resultset.map (fun r => objLookup r idAttr) ++
    (match st.currentId with | none => [] | some c => [some (JSValue.vStr c)])

/-- Hypothesis of the scalar round-trip: the field value is a scalar
(or `null`), its declared type matches its runtime type (`null` under
any scalar declaration), and a string value does not contain the
`'#NIL'` sentinel. -/
def scalarOk (decl : String → String) (kv : String × JSValue) : Prop :=
  match kv.2 with
  | JSValue.vNull =>
    decl kv.1 = "string" ∨ decl kv.1 = "number" ∨ decl kv.1 = "boolean"
  | JSValue.vBool _ => decl kv.1 = "boolean"
  | JSValue.vNum _ => decl kv.1 = "number"
  | JSValue.vStr s => decl kv.1 = "string" ∧ hasSubstr ("#NIL".data) s.data = false
  | _ => False

/-! ## Concrete sample data for witnesses and counterexamples -/

/-- A `json` decoder stub for statements that never reach the engine's
json decode path. -/
def noJsonDecode : String → Option JSValue := fun _ => none

/-- Field-type metadata whose `toString` the function-name regex cannot
match. -/
def nullTypeSrc : String → String := fun _ => "null"

/-- Field-type metadata stringifying like the `String` constructor. -/
def stringTypeSrc : String → String := fun _ => "function String() native"

/-- A proxy attached to a store. -/
def pStore : LevelDbProxy := { directory := "db", type := some "store" }

/-- A proxy attached to a single model. -/
def pModel : LevelDbProxy := { directory := "db", type := some "model" }

/-- A one-field record used by the save counterexample. -/
def exRecord : JSValue := JSValue.vObj [("a", JSValue.vStr "b")]

/-- A three-field record (identity plus two data fields) used by the
format counterexample. -/
def exStoreRecord : JSValue :=
  JSValue.vObj [("testid", JSValue.vStr "a"), ("x", JSValue.vNum 1), ("y", JSValue.vNum 2)]

/-- Declared types for the round-trip witness record. -/
def exDecl : String → String := fun k =>
  if k = "b" then "boolean" else if k = "n" then "number" else "string"

/-- The round-trip witness record: one field of each scalar shape. -/
def exScalarRecord : List (String × JSValue) :=
  [("b", JSValue.vBool true), ("n", JSValue.vNum 3),
   ("s", JSValue.vStr "x"), ("z", JSValue.vNull)]

/-! ## Auxiliary lemmas: objects -/

theorem objSet_ne_nil (o : JsObj) (k : String) (v : JSValue) : objSet o k v ≠ [] := by
  cases o with
  | nil => simp [objSet]
  | cons hd t =>
    obtain ⟨k0, v0⟩ := hd
    simp only [objSet]
    split <;> simp

theorem objLookup_objSet_ne (o : JsObj) (k k' : String) (v : JSValue) (h : k' ≠ k) :
    objLookup (objSet o k v) k' = objLookup o k' := by
  induction o with
  | nil => simp [objSet, objLookup, Ne.symm h]
  | cons hd t ih =>
    obtain ⟨k0, v0⟩ := hd
    simp only [objSet]
    by_cases hk : k0 = k
    · subst hk
      simp [objLookup, Ne.symm h]
    · rw [if_neg hk]
      simp [objLookup, ih]

/-! ## Auxiliary lemmas: decimal digits -/

theorem digitChar_isDigit (d : Nat) : (digitChar d).isDigit = true := by
  unfold digitChar
  split <;> decide

theorem digitChar_val (d : Nat) (h : d < 10) : (digitChar d).toNat - 48 = d := by
  interval_cases d <;> decide

theorem natToCharsAux_append (n : Nat) :
    ∀ acc, natToCharsAux n acc = natToChars n ++ acc := by
  induction n using Nat.strong_induction_on with
  | _ n ih =>
    intro acc
    unfold natToChars
    by_cases h : n < 10
    · conv_lhs => rw [natToCharsAux]
      conv_rhs => rw [natToCharsAux]
      simp [h]
    · conv_lhs => rw [natToCharsAux]
      conv_rhs => rw [natToCharsAux]
      rw [if_neg h, if_neg h]
      have hlt : n / 10 < n := Nat.div_lt_self (by omega) (by omega)
      rw [ih (n / 10) hlt, ih (n / 10) hlt (digitChar (n % 10) :: [])]
      simp [natToChars]

theorem mem_natToChars_isDigit (n : Nat) : ∀ c ∈ natToChars n, c.isDigit = true := by
  induction n using Nat.strong_induction_on with
  | _ n ih =>
    intro c hc
    rw [natToChars, natToCharsAux] at hc
    by_cases h : n < 10
    · rw [if_pos h] at hc
      simp at hc
      subst hc
      exact digitChar_isDigit n
    · rw [if_neg h, natToCharsAux_append] at hc
      have hlt : n / 10 < n := Nat.div_lt_self (by omega) (by omega)
      rcases List.mem_append.mp hc with h1 | h1
      · exact ih (n / 10) hlt c h1
      · simp at h1
        subst h1
        exact digitChar_isDigit (n % 10)

theorem natToChars_ne_nil (n : Nat) : natToChars n ≠ [] := by
  rw [natToChars, natToCharsAux]
  split
  · simp
  · rw [natToCharsAux_append]
    simp [natToChars]

theorem parseDigitsNat_natToChars (n : Nat) : parseDigitsNat (natToChars n) = n := by
  induction n using Nat.strong_induction_on with
  | _ n ih =>
    by_cases h : n < 10
    · rw [natToChars, natToCharsAux, if_pos h]
      simp only [parseDigitsNat, List.foldl]
      rw [Nat.zero_mul, Nat.zero_add]
      exact digitChar_val n h
    · rw [natToChars, natToCharsAux, if_neg h, natToCharsAux_append]
      have hlt : n / 10 < n := Nat.div_lt_self (by omega) (by omega)
      simp only [parseDigitsNat] at *
      rw [List.foldl_append]
      simp only [List.foldl]
      rw [ih (n / 10) hlt, digitChar_val (n % 10) (Nat.mod_lt _ (by omega))]
      omega

/-! ## Auxiliary lemmas: character classes and substrings -/

theorem isDigit_props {c : Char} (h : c.isDigit = true) :
    c ≠ '#' ∧ c ≠ '.' ∧ c ≠ '-' ∧ c ≠ '+' ∧ jsWhitespaceChar c = false := by
  refine ⟨?_, ?_, ?_, ?_, ?_⟩
  · rintro rfl; exact absurd h (by decide)
  · rintro rfl; exact absurd h (by decide)
  · rintro rfl; exact absurd h (by decide)
  · rintro rfl; exact absurd h (by decide)
  · cases hw : jsWhitespaceChar c
    · rfl
    · exfalso
      simp only [jsWhitespaceChar, Bool.or_eq_true, decide_eq_true_eq] at hw
      rcases hw with ((((h1 | h1) | h1) | h1) | h1) | h1 <;> subst h1 <;>
        exact absurd h (by decide)

theorem takeWhile_all {α : Type} {p : α → Bool} :
    ∀ (l : List α), (∀ c ∈ l, p c = true) → l.takeWhile p = l := by
  intro l h
  induction l with
  | nil => rfl
  | cons c t ih =>
    rw [List.takeWhile_cons, h c (by simp)]
    simp only [ite_true]
    rw [ih (fun x hx => h x (by simp [hx]))]

theorem hasSubstr_eq_false {p : Char} {ps : List Char} :
    ∀ {cs : List Char}, (∀ c ∈ cs, c ≠ p) → hasSubstr (p :: ps) cs = false := by
  intro cs
  induction cs with
  | nil => intro _; rfl
  | cons c t ih =>
    intro h
    have hc : (p == c) = false := by
      simp only [beq_eq_false_iff_ne, ne_eq]
      exact fun hh => (h c (by simp)) hh.symm
    simp only [hasSubstr, List.isPrefixOf, hc, Bool.false_and, Bool.false_or]
    exact ih (fun x hx => h x (by simp [hx]))

/-! ## Auxiliary lemmas: number strings -/

theorem jsNumToString_chars (n : Int) :
    ∀ c ∈ (jsNumToString n).data, c.isDigit = true ∨ c = '-' := by
  unfold jsNumToString
  split <;> intro c hc
  · have hm : c = '-' ∨ c ∈ natToChars n.natAbs := by simpa using hc
    rcases hm with h | h
    · exact Or.inr h
    · exact Or.inl (mem_natToChars_isDigit _ c h)
  · have hm : c ∈ natToChars n.toNat := by simpa using hc
    exact Or.inl (mem_natToChars_isDigit _ c hm)

theorem hasSubstr_hash_jsNum (n : Int) :
    hasSubstr ("#NIL".data) (jsNumToString n).data = false := by
  have hd : ("#NIL".data) = '#' :: "NIL".data := rfl
  rw [hd]
  apply hasSubstr_eq_false
  intro c hc
  rcases jsNumToString_chars n c hc with h | h
  · exact (isDigit_props h).1
  · subst h; decide

theorem hasSubstr_dot_jsNum (n : Int) :
    hasSubstr (".".data) (jsNumToString n).data = false := by
  have hd : (".".data) = '.' :: ([] : List Char) := rfl
  rw [hd]
  apply hasSubstr_eq_false
  intro c hc
  rcases jsNumToString_chars n c hc with h | h
  · exact (isDigit_props h).2.1
  · subst h; decide

theorem parseIntDigits_natToChars (m : Nat) : parseIntDigits (natToChars m) = some m := by
  have hne : (natToChars m).isEmpty ≠ true := by
    cases h : natToChars m with
    | nil => exact absurd h (natToChars_ne_nil m)
    | cons a b => simp [List.isEmpty]
  unfold parseIntDigits
  rw [takeWhile_all _ (mem_natToChars_isDigit m)]
  rw [if_neg hne, parseDigitsNat_natToChars]

theorem parseIntJS_jsNumToString (n : Int) : parseIntJS (jsNumToString n) = some n := by
  by_cases hn : n < 0
  · have hdata : (jsNumToString n).data = '-' :: natToChars n.natAbs := by
      unfold jsNumToString
      rw [if_pos hn]
    have hdrop :
        List.dropWhile jsWhitespaceChar ('-' :: natToChars n.natAbs) =
          '-' :: natToChars n.natAbs := by
      rw [List.dropWhile_cons, if_neg (by decide)]
    simp only [parseIntJS]
    rw [hdata, hdrop]
    simp only [List.take_succ_cons, List.take_zero, List.tail_cons]
    rw [if_pos trivial, parseIntDigits_natToChars]
    simp only [Option.map_some']
    congr 1
    show -((n.natAbs : Nat) : Int) = n
    omega
  · have hdata : (jsNumToString n).data = natToChars n.toNat := by
      unfold jsNumToString
      rw [if_neg hn]
    obtain ⟨c, cs', hcs⟩ : ∃ c cs', natToChars n.toNat = c :: cs' := by
      cases h : natToChars n.toNat with
      | nil => exact absurd h (natToChars_ne_nil _)
      | cons a b => exact ⟨a, b, rfl⟩
    have hdig : c.isDigit = true := mem_natToChars_isDigit _ c (by rw [hcs]; simp)
    have hdrop : List.dropWhile jsWhitespaceChar (c :: cs') = c :: cs' := by
      rw [List.dropWhile_cons]
      simp [(isDigit_props hdig).2.2.2.2]
    simp only [parseIntJS]
    rw [hdata, hcs, hdrop]
    simp only [List.take_succ_cons, List.take_zero]
    rw [if_neg (show ¬([c] = ['-']) by simp [(isDigit_props hdig).2.2.1]),
        if_neg (show ¬([c] = ['+']) by simp [(isDigit_props hdig).2.2.2.1])]
    rw [← hcs, parseIntDigits_natToChars]
    simp only [Option.map_some']
    congr 1
    show ((n.toNat : Nat) : Int) = n
    omega

/-! ## Claim C7: configuration error at construction -/

/-- **C7** — Constructing the adapter with no storage location (no config,
an empty config object, or an empty string — all falsy `config.directory`
shapes) raises the configuration error synchronously; with a directory
supplied (as a string or as `config.directory`) construction succeeds,
stores that directory (a constant property, which `init` never touches),
and leaves `type` null. -/
theorem c7_constructor_config (d : String) (hd : d ≠ "") :
    buildProxy none = Except.error "No database configuration detected." ∧
    buildProxy (some (DbConfig.obj none)) =
      Except.error "No database configuration detected." ∧
    buildProxy (some (DbConfig.str "")) =
      Except.error "No database configuration detected." ∧
    buildProxy (some (DbConfig.obj (some ""))) =
      Except.error "No database configuration detected." ∧
    buildProxy (some (DbConfig.str d)) =
      Except.ok { directory := d, type := none } ∧
    buildProxy (some (DbConfig.obj (some d))) =
      Except.ok { directory := d, type := none } ∧
    (∀ b, (init { directory := d, type := none } b).directory = d) := by
  refine ⟨rfl, rfl, rfl, rfl, ?_, ?_, fun b => rfl⟩
  · simp [buildProxy, hd]
  · simp [buildProxy, hd]

/-- Witness for C7 at the concrete directory `"mydb"`. -/
theorem c7_constructor_config_witness :
    buildProxy (some (DbConfig.str "mydb")) =
      Except.ok { directory := "mydb", type := none } ∧
    buildProxy none = Except.error "No database configuration detected." := by
  have h := c7_constructor_config "mydb" (by decide)
  exact ⟨h.2.2.2.2.1, h.1⟩

/-! ## Claim C8: idempotence of save -/

/-- **C8** — `save` is idempotent on storage contents: with the host data
unchanged, a second `save` leaves the keyspace exactly as the first did,
because the bulk save is a full deterministic rewrite (destroy, then
batch `format(this.data)`) that never reads the prior contents. -/
theorem c8_save_idempotent (p : LevelDbProxy) (idAttr : String) (data : JSValue)
    (st : Storage) :
    (save p idAttr data ((save p idAttr data st).2)).2 = (save p idAttr data st).2 := rfl

/-! ## Claim C9: the operating mode is immutable -/

/-- **C9** — `init` sets `type` to `'store'` exactly when the host is a
`Store` collection and to `'model'` otherwise, and no other operation
(`format` is a pure function of its arguments; `save`, `fetch`, `parse`
and `op` return the proxy with its `type` untouched) ever changes it. -/
theorem c9_mode_immutable (p : LevelDbProxy) (b : Bool) (idAttr : String)
    (data : JSValue) (st : Storage) (streamed : List JSValue)
    (joins : List String) (fts : String → String) (jd : String → Option JSValue)
    (ds : List StoreItem) (q q2 : LevelDbProxy) (e : FetchEffect) :
    (init p b).type = some (if b then "store" else "model") ∧
    ((save p idAttr data st).1).type = p.type ∧
    (fetch p streamed st joins fts jd = Except.ok (q, e) → q.type = p.type) ∧
    (parse p idAttr ds = Except.ok q2 → q2.type = p.type) ∧
    ((op p).1).type = p.type := by
  refine ⟨rfl, rfl, ?_, ?_, rfl⟩
  · intro h
    unfold fetch at h
    split at h
    · simp only [Except.ok.injEq, Prod.mk.injEq] at h
      rw [← h.1]
    · cases hb : fetchModelData st joins fts jd <;> rw [hb] at h <;>
        simp [Except.map] at h
      rw [← h.1]
  · intro h
    unfold parse at h
    split at h
    · cases hb : parseResultset idAttr ds <;> rw [hb] at h <;>
        simp [Except.map] at h
      rw [h]
    · simp only [Except.ok.injEq] at h
      rw [← h]

/-- Witness for C9 on a store-mode proxy with concrete data. -/
theorem c9_mode_immutable_witness :
    (init pStore true).type = some (if true then "store" else "model") ∧
    ((save pStore "testid" exRecord []).1).type = pStore.type ∧
    pStore.type = pStore.type := by
  have h := c9_mode_immutable pStore true "testid" exRecord [] [] []
    nullTypeSrc noJsonDecode [] pStore pStore (FetchEffect.reload [])
  exact ⟨h.1, h.2.1, h.2.2.1 rfl⟩

/-! ## Claim C10: parse is dead code -/

/-- **C10** — `parse` returns no value and has no effect: the resultset
it builds is discarded and the proxy comes back unchanged (in model mode
it does nothing at all); and store-mode `fetch` never invokes `parse`,
handing the raw streamed values directly to the host's `reload`. -/
theorem c10_parse_discarded (p : LevelDbProxy) (idAttr : String)
    (ds : List StoreItem) (streamed : List JSValue) (st : Storage)
    (joins : List String) (fts : String → String) (jd : String → Option JSValue)
    (q : LevelDbProxy) :
    (parse p idAttr ds = Except.ok q → q = p) ∧
    (p.type = some "store" →
      fetch p streamed st joins fts jd = Except.ok (p, FetchEffect.reload streamed)) := by
  constructor
  · intro h
    unfold parse at h
    split at h
    · cases hb : parseResultset idAttr ds <;> rw [hb] at h <;>
        simp [Except.map] at h
      rw [h]
    · simp only [Except.ok.injEq] at h
      rw [← h]
  · intro hp
    unfold fetch
    rw [if_pos hp]

/-- Witness for C10 on a store-mode proxy with concrete data. -/
theorem c10_parse_discarded_witness :
    pStore = pStore ∧
    fetch pStore [] [] [] nullTypeSrc noJsonDecode =
      Except.ok (pStore, FetchEffect.reload []) := by
  have h := c10_parse_discarded pStore "testid" [] [] [] [] nullTypeSrc
    noJsonDecode pStore
  exact ⟨h.1 rfl, h.2 rfl⟩

/-! ## Claim C3: save's destructive pre-clear -/

/-- **C3 counterexample** — on a *model*-mode proxy, a storage key `zzz`
that is not among the record's flattened fields (the record has only the
field `a`) is present before `save` and gone afterwards: `save` calls
`leveldown.destroy` unconditionally, in record mode too, contradicting
the claim that record-mode save leaves unrelated keys unchanged. -/
theorem c3_record_save_clears_cex :
    storageLookup "zzz" ((save pModel "testid" exRecord [("zzz", "old")]).2) = none ∧
    storageLookup "zzz" [("zzz", "old")] = some "old" ∧
    (format "testid" (some exRecord)).map BatchOp.key = ["a"] := by
  refine ⟨rfl, rfl, rfl⟩

/-- **C3 amended** — `save` performs the destructive pre-clear in *both*
modes: the body never consults `this.type` before `destroy`, so the
resulting storage contents are independent of whatever was stored before
(everything not rewritten by the batch is lost, also in record mode). -/
theorem c3_amended_save_destroys (p : LevelDbProxy) (idAttr : String)
    (data : JSValue) (st st' : Storage) :
    (save p idAttr data st).2 = (save p idAttr data st').2 := rfl

/-! ## Claim C1: store-mode flattening -/

/-- **C1 counterexample** — flattening a one-record collection whose
record has three fields (`testid`, `x`, `y`) yields a *single* put
operation whose key is just the identity value `"a"` and whose value is
the whole record JSON-encoded — not one operation per field with
separator-joined keys (`a.x`, `a.y`, …) as the claim states. -/
theorem c1_store_format_per_record_cex :
    format "testid" (some (JSValue.vArr [exStoreRecord])) =
      [{ type := "put", key := "a", value := exStoreRecord,
         keyEncoding := "string", valueEncoding := "json" }] := rfl

/-- **C1 amended** — in collection (store) mode, `format` emits exactly
one write operation per record, in collection order: the `i`-th op is a
`put` whose key is the record's identity value stringified (the ordinal
index as a string when the identity is `null` or absent) and whose value
is the entire record under the `json` value encoding.  Fields are not
individually flattened and no separator-joined field paths occur. -/
theorem c1_amended_store_format (idAttr : String) (items : List JSValue)
    (i : Nat) (h : i < items.length) :
    (format idAttr (some (JSValue.vArr items))).length = items.length ∧
    (format idAttr (some (JSValue.vArr items))).getD i defaultBatchOp =
      { type := "put", key := recordKey idAttr (items.getD i JSValue.vNull) i,
        value := items.getD i JSValue.vNull,
        keyEncoding := "string", valueEncoding := "json" } := by
  constructor
  · simp [format, jsTruthy]
  · have hl : i < (format idAttr (some (JSValue.vArr items))).length := by
      simp [format, jsTruthy]
      omega
    simp only [format, jsTruthy, ite_true]
    rw [List.getD_eq_getElem _ _ (by simpa [format, jsTruthy] using hl)]
    rw [List.getElem_map, List.getElem_enum]
    rw [List.getD_eq_getElem _ _ h]

/-- Witness for C1 (amended) at a concrete one-record collection. -/
theorem c1_amended_store_format_witness :
    (format "testid" (some (JSValue.vArr [exStoreRecord]))).length = 1 ∧
    (format "testid" (some (JSValue.vArr [exStoreRecord]))).getD 0 defaultBatchOp =
      { type := "put"
        key := recordKey "testid" ([exStoreRecord].getD 0 JSValue.vNull) 0
        value := [exStoreRecord].getD 0 JSValue.vNull
        keyEncoding := "string", valueEncoding := "json" } := by
  have h := c1_amended_store_format "testid" [exStoreRecord] 0 (by decide)
  exact ⟨h.1, h.2⟩

/-! ## Claim C6: declared-type resolution -/

/-- **C6 counterexample** — a non-relationship field whose declared type
metadata the function-name regex cannot match resolves to `'string'`
(the `NGN.coalesce` fallback), not to `'json'` as the claim states. -/
theorem c6_unresolved_type_cex :
    getFieldType [] nullTypeSrc "f" = "string" ∧
    getFieldType [] nullTypeSrc "f" ≠ "json" := by
  refine ⟨rfl, ?_⟩
  intro h
  rw [show getFieldType [] nullTypeSrc "f" = "string" from rfl] at h
  exact absurd h (by decide)

/-- **C6 amended** — `getFieldType` returns `'json'` for every
relationship (join) field and for every `'array'`-resolving declaration;
for a resolvable declaration it returns the lowercased captured name;
but when the type metadata cannot be resolved (the regex exec returns
`null`) it falls back to `'string'`, not `'json'`. -/
theorem c6_amended_field_type (joins : List String) (src : String → String)
    (field : String) (cap : List Char) :
    (joins.contains field = true → getFieldType joins src field = "json") ∧
    (joins.contains field = false → execFunctionPattern (src field).data = none →
      getFieldType joins src field = "string") ∧
    (joins.contains field = false → execFunctionPattern (src field).data = some cap →
      getFieldType joins src field =
        (if toLowerJS (String.mk cap) = "array" then "json"
         else toLowerJS (String.mk cap))) := by
  refine ⟨?_, ?_, ?_⟩
  · intro hj
    unfold getFieldType
    rw [if_pos hj]
    rfl
  · intro hj he
    unfold getFieldType
    rw [if_neg (show ¬(joins.contains field = true) by rw [hj]; simp), he]
    rfl
  · intro hj he
    unfold getFieldType
    rw [if_neg (show ¬(joins.contains field = true) by rw [hj]; simp), he]

/-- Witness for C6 (amended): a relationship field, an unresolvable
declaration, and a `String`-declared field. -/
theorem c6_amended_field_type_witness :
    getFieldType ["pet"] nullTypeSrc "pet" = "json" ∧
    getFieldType [] nullTypeSrc "x" = "string" ∧
    getFieldType [] stringTypeSrc "x" = "string" := by
  have h1 := c6_amended_field_type ["pet"] nullTypeSrc "pet" []
  have h2 := c6_amended_field_type [] nullTypeSrc "x" []
  have h3 := c6_amended_field_type [] stringTypeSrc "x" ("String".data)
  refine ⟨h1.1 rfl, h2.2.1 rfl rfl, ?_⟩
  rw [h3.2.2 rfl rfl]
  rfl

/-! ## Claim C2: scalar round-trip and the sentinel -/

/-- The decode of a scalar-typed raw value containing the sentinel is
`null`. -/
theorem fetchDecode_scalar_nil (jd : String → Option JSValue) (t : String)
    (ht : t = "string" ∨ t = "number" ∨ t = "boolean") (raw : String)
    (hraw : hasSubstr ("#NIL".data) raw.data = true) :
    fetchDecode jd t raw = some JSValue.vNull := by
  unfold fetchDecode
  rw [if_pos ht, if_pos hraw]

/-- **C2 counterexample** — a genuine string value equal to the sentinel
literal `'#NIL'` does not round-trip: encoded by `format` and decoded by
the fetch rules under its declared `string` type it comes back as
`null`, because the decoder tests `value.indexOf('#NIL') >= 0`
(containment), not equality. -/
theorem c2_sentinel_string_cex :
    fetchDecode noJsonDecode "string"
      (rawBytes (formatField ("s", JSValue.vStr "#NIL"))) = some JSValue.vNull ∧
    fetchDecode noJsonDecode "string"
      (rawBytes (formatField ("s", JSValue.vStr "#NIL"))) ≠
        some (JSValue.vStr "#NIL") := by
  have h1 : fetchDecode noJsonDecode "string"
      (rawBytes (formatField ("s", JSValue.vStr "#NIL"))) = some JSValue.vNull := rfl
  refine ⟨h1, ?_⟩
  intro h
  rw [h1] at h
  exact JSValue.noConfusion (Option.some.inj h)

/-- **C2 amended** — for every record whose fields hold only scalar
values with matching declared types *and whose string values do not
contain the sentinel literal*, decoding each stored value after encoding
it with `format` yields the original value field-for-field (a `null`
field decodes back to `null`); and a raw stored value decodes to `null`
under a scalar declared type if and only if it *contains* the sentinel
literal — so a genuine string value equal to (or containing) `'#NIL'`
decodes to `null` instead of itself. -/
theorem c2_amended_scalar_roundtrip (r : List (String × JSValue))
    (decl : String → String) (jd : String → Option JSValue) (t raw : String)
    (hr : ∀ kv ∈ r, scalarOk decl kv)
    (ht : t = "string" ∨ t = "number" ∨ t = "boolean") :
    (∀ kv ∈ r, fetchDecode jd (decl kv.1) (rawBytes (formatField kv)) = some kv.2) ∧
    ((fetchDecode jd t raw = some JSValue.vNull) ↔
      hasSubstr ("#NIL".data) raw.data = true) := by
  constructor
  · intro kv hkv
    have hok := hr kv hkv
    obtain ⟨k, v⟩ := kv
    cases v with
    | vNull =>
      have hok' : decl k = "string" ∨ decl k = "number" ∨ decl k = "boolean" := hok
      have hraw : rawBytes (formatField (k, JSValue.vNull)) =
          jsonStringify (JSValue.vStr "#NIL") := rfl
      exact fetchDecode_scalar_nil jd (decl k) hok' _ (by rw [hraw]; decide)
    | vBool b =>
      have hd : decl k = "boolean" := hok
      rw [show (k, JSValue.vBool b).1 = k from rfl, hd]
      cases b
      · show fetchDecode jd "boolean" "false" = some (JSValue.vBool false)
        unfold fetchDecode
        rw [if_pos (Or.inr (Or.inr rfl)), if_neg (by decide), if_pos rfl]
        rfl
      · show fetchDecode jd "boolean" "true" = some (JSValue.vBool true)
        unfold fetchDecode
        rw [if_pos (Or.inr (Or.inr rfl)), if_neg (by decide), if_pos rfl]
        rfl
    | vNum n =>
      have hd : decl k = "number" := hok
      rw [show (k, JSValue.vNum n).1 = k from rfl, hd]
      show fetchDecode jd "number" (jsNumToString n) = some (JSValue.vNum n)
      unfold fetchDecode
      rw [if_pos (Or.inr (Or.inl rfl)), if_neg (by simp [hasSubstr_hash_jsNum n]),
        if_neg (by decide), if_pos rfl, if_neg (by simp [hasSubstr_dot_jsNum n]),
        parseIntJS_jsNumToString]
      rfl
    | vStr s =>
      obtain ⟨hd, hnil⟩ := hok
      rw [show (k, JSValue.vStr s).1 = k from rfl, hd]
      show fetchDecode jd "string" s = some (JSValue.vStr s)
      unfold fetchDecode
      rw [if_pos (Or.inl rfl), if_neg (by simp [hnil]), if_neg (by decide),
        if_neg (by decide)]
    | vArr l => exact hok.elim
    | vObj f => exact hok.elim
  · constructor
    · intro h
      by_cases hs : hasSubstr ("#NIL".data) raw.data = true
      · exact hs
      · exfalso
        unfold fetchDecode at h
        rw [if_pos ht, if_neg hs] at h
        rcases ht with h1 | h1 | h1 <;> subst h1
        · rw [if_neg (by decide), if_neg (by decide)] at h
          simp at h
        · rw [if_neg (by decide), if_pos rfl] at h
          by_cases hdot : hasSubstr (".".data) raw.data = true
          · rw [if_pos hdot] at h
            exact Option.noConfusion h
          · rw [if_neg hdot] at h
            cases hp : parseIntJS raw <;> rw [hp] at h <;> simp at h
        · rw [if_pos rfl] at h
          simp at h
    · intro hs
      exact fetchDecode_scalar_nil jd t ht raw hs

/-- Witness for C2 (amended) on a record with one field of each scalar
shape, plus the sentinel-containment iff at a concrete raw value. -/
theorem c2_amended_scalar_roundtrip_witness :
    fetchDecode noJsonDecode (exDecl "n")
      (rawBytes (formatField ("n", JSValue.vNum 3))) = some (JSValue.vNum 3) ∧
    ((fetchDecode noJsonDecode "string" "x#NILy" = some JSValue.vNull) ↔
      hasSubstr ("#NIL".data) ("x#NILy".data) = true) := by
  have h := c2_amended_scalar_roundtrip exScalarRecord exDecl noJsonDecode
    "string" "x#NILy"
    (by
      intro kv hkv
      fin_cases hkv
      · exact rfl
      · exact rfl
      · exact ⟨rfl, by decide⟩
      · exact Or.inl rfl)
    (Or.inl rfl)
  exact ⟨h.1 ("n", JSValue.vNum 3) (by simp [exScalarRecord]), h.2⟩

/-! ## Claim C4: re-nesting of deep field paths -/

/-- **C4 (code bug)** — evaluation of `parse`'s re-nesting at the failing
input: one stored entry with key `0.a.b.c` and value `"v"`.  The claim
(and the clear intent of the `while` loop, whose
`keys.length === 0 ? item.value : {}` ternary builds an intermediate
mapping precisely so the value can live inside it) calls for
`{a: {b: {c: "v"}}}`, but the loop never rebinds `key` to the sub-object
it creates, so every remaining segment lands as a direct child of the
first-level object: the record comes out as `{testid: "0",
a: {b: {}, c: "v"}}` — the fresh `{}` stored at `b` is orphaned and the
value sits beside it, not inside it. -/
theorem c4_deep_nesting_bug :
    parseResultset "testid" [{ key := "0.a.b.c", value := JSValue.vStr "v" }] =
      Except.ok [[("testid", JSValue.vStr "0"),
        ("a", JSValue.vObj [("b", JSValue.vObj []), ("c", JSValue.vStr "v")])]] ∧
    [("testid", JSValue.vStr "0"),
        ("a", JSValue.vObj [("b", JSValue.vObj []), ("c", JSValue.vStr "v")])] ≠
      [("testid", JSValue.vStr "0"),
        ("a", JSValue.vObj [("b", JSValue.vObj [("c", JSValue.vStr "v")])])] := by
  refine ⟨rfl, ?_⟩
  intro h
  simp at h

/-! ## Claim C5: identity grouping in parse -/

/-- After the grouping block, the current identity is the item's leading
segment. -/
theorem stepGroup_currentId (idAttr : String) (st : ParseState) (id : String) :
    (stepGroup idAttr st id).currentId = some id := by
  unfold stepGroup
  split
  · assumption
  · rfl

/-- The grouping block preserves the loop invariant. -/
theorem stepGroup_inv (idAttr : String) (st : ParseState) (id : String)
    (hInv : ParseInv idAttr st) : ParseInv idAttr (stepGroup idAttr st id) := by
  unfold stepGroup
  split
  · exact hInv
  · unfold ParseInv
    constructor
    · intro h
      exact Option.noConfusion h
    · intro c hc
      have hid : id = c := Option.some.inj hc
      subst hid
      exact ⟨by simp [objSet, objLookup], objSet_ne_nil _ _ _⟩

/-- Effect of the grouping block on the flushed-or-pending identities:
nothing changes within a run, and a new identity appends one entry. -/
theorem stepGroup_flushIds (idAttr : String) (st : ParseState) (id : String)
    (hInv : ParseInv idAttr st) :
    flushIds idAttr (stepGroup idAttr st id) =
      flushIds idAttr st ++
        (if st.currentId = some id then [] else [some (JSValue.vStr id)]) := by
  by_cases hc : st.currentId = some id
  · have hG : stepGroup idAttr st id = st := by
      unfold stepGroup
      rw [if_pos hc]
    rw [hG, if_pos hc]
    simp
  · have hG : stepGroup idAttr st id =
        { currentId := some id
          resultset := st.resultset ++
            (match st.currentId with | none => [] | some _ => [st.currentData])
          currentData := objSet [] idAttr (JSValue.vStr id) } := by
      unfold stepGroup
      rw [if_neg hc]
    rw [hG, if_neg hc]
    unfold flushIds
    cases hcur : st.currentId with
    | none => simp [hcur]
    | some c =>
      obtain ⟨hl, _⟩ := hInv.2 c hcur
      simp [hcur, hl]

/-- Every successful assignment step only rewrites `currentData` by a
single property write at the first remaining segment. -/
theorem stepAssign_ok_shape (st1 : ParseState) (rest : List String)
    (v : JSValue) (st2 : ParseState)
    (h : stepAssign st1 rest v = Except.ok st2) (hne : rest ≠ []) :
    ∃ X, st2 = { st1 with currentData := objSet st1.currentData (rest.headD "") X } := by
  cases rest with
  | nil => exact absurd rfl hne
  | cons k rest' =>
    cases rest' with
    | nil =>
      simp only [stepAssign, Except.ok.injEq] at h
      exact ⟨v, h.symm⟩
    | cons k2 more =>
      simp only [stepAssign] at h
      cases hl : objLookup st1.currentData k with
      | none =>
        rw [hl] at h
        simp only [Except.ok.injEq] at h
        exact ⟨_, h.symm⟩
      | some w =>
        rw [hl] at h
        dsimp only at h
        by_cases ht : jsTruthy w
        · rw [if_pos ht] at h
          cases w with
          | vObj o =>
            simp only [Except.ok.injEq] at h
            exact ⟨_, h.symm⟩
          | vArr a =>
            simp only [Except.ok.injEq] at h
            exact ⟨_, h.symm⟩
          | vNull => exact Except.noConfusion h
          | vBool b => exact Except.noConfusion h
          | vNum n => exact Except.noConfusion h
          | vStr s => exact Except.noConfusion h
        · rw [if_neg ht] at h
          simp only [Except.ok.injEq] at h
          exact ⟨_, h.symm⟩

/-- Specification of one successful `parse` iteration on a well-shaped
key: the current identity becomes the leading segment, the invariant is
preserved, and the flushed-or-pending identities grow by the leading
segment exactly when it differs from the previous identity. -/
theorem stepParse_ok_spec (idAttr : String) (st st1 : ParseState)
    (item : StoreItem)
    (hseg : 2 ≤ (jsSplitDot item.key).length)
    (hfld : (jsSplitDot item.key).tail.headD "" ≠ idAttr)
    (hInv : ParseInv idAttr st)
    (hstep : stepParse idAttr st item = Except.ok st1) :
    st1.currentId = some (leadingSeg item) ∧ ParseInv idAttr st1 ∧
    flushIds idAttr st1 = flushIds idAttr st ++
      (if st.currentId = some (leadingSeg item) then []
       else [some (JSValue.vStr (leadingSeg item))]) := by
  have hrest : (jsSplitDot item.key).tail ≠ [] := by
    intro h
    have hh := congrArg List.length h
    simp [List.length_tail] at hh
    omega
  have hrfl : stepParse idAttr st item =
      stepAssign (stepGroup idAttr st (leadingSeg item))
        ((jsSplitDot item.key).tail) item.value := rfl
  rw [hrfl] at hstep
  obtain ⟨X, hX⟩ := stepAssign_ok_shape _ _ _ _ hstep hrest
  have hGid : (stepGroup idAttr st (leadingSeg item)).currentId =
      some (leadingSeg item) := stepGroup_currentId idAttr st (leadingSeg item)
  have hGinv : ParseInv idAttr (stepGroup idAttr st (leadingSeg item)) :=
    stepGroup_inv idAttr st (leadingSeg item) hInv
  have hGflush := stepGroup_flushIds idAttr st (leadingSeg item) hInv
  have hid1 : st1.currentId = some (leadingSeg item) := by
    rw [hX]
    exact hGid
  refine ⟨hid1, ?_, ?_⟩
  · unfold ParseInv
    constructor
    · intro h
      rw [hid1] at h
      exact Option.noConfusion h
    · intro c hc
      rw [hid1] at hc
      have hic : leadingSeg item = c := Option.some.inj hc
      subst hic
      obtain ⟨hl, _⟩ := hGinv.2 (leadingSeg item) hGid
      have hcd : st1.currentData =
          objSet (stepGroup idAttr st (leadingSeg item)).currentData
            ((jsSplitDot item.key).tail.headD "") X := by
        rw [hX]
      rw [hcd]
      constructor
      · rw [objLookup_objSet_ne _ _ _ _ (Ne.symm hfld)]
        exact hl
      · exact objSet_ne_nil _ _ _
  · have hsame : flushIds idAttr st1 =
        flushIds idAttr (stepGroup idAttr st (leadingSeg item)) := by
      rw [hX]
      rfl
    rw [hsame, hGflush]

/-- Unfolding of `consecGroups` at a cons cell. -/
theorem consecGroups_cons (cur : Option String) (x : String) (xs : List String) :
    consecGroups cur (x :: xs) =
      if cur = some x then consecGroups cur xs
      else x :: consecGroups (some x) xs := rfl

/-- The fold of `parse`'s loop over a well-shaped dataset yields one
flushed-or-pending identity per run of equal consecutive leading
segments. -/
theorem foldParse_flushIds (idAttr : String) :
    ∀ (ds : List StoreItem) (st st' : ParseState),
      (∀ item ∈ ds, 2 ≤ (jsSplitDot item.key).length) →
      (∀ item ∈ ds, (jsSplitDot item.key).tail.headD "" ≠ idAttr) →
      ParseInv idAttr st →
      List.foldlM (stepParse idAttr) st ds = Except.ok st' →
      ParseInv idAttr st' ∧
      flushIds idAttr st' = flushIds idAttr st ++
        (consecGroups st.currentId (ds.map leadingSeg)).map
          (fun s => some (JSValue.vStr s)) := by
  intro ds
  induction ds with
  | nil =>
    intro st st' _ _ hInv hfold
    simp only [List.foldlM_nil, pure, Except.pure, Except.ok.injEq] at hfold
    subst hfold
    exact ⟨hInv, by simp [consecGroups]⟩
  | cons item rest ih =>
    intro st st' hseg hfld hInv hfold
    rw [List.foldlM_cons] at hfold
    cases hstep : stepParse idAttr st item with
    | error e =>
      rw [hstep] at hfold
      simp [Bind.bind, Except.bind] at hfold
    | ok st1 =>
      rw [hstep] at hfold
      simp only [Bind.bind, Except.bind] at hfold
      obtain ⟨hlead, hInv1, hflush⟩ := stepParse_ok_spec idAttr st st1 item
        (hseg item (by simp)) (hfld item (by simp)) hInv hstep
      obtain ⟨hInv', hmain⟩ := ih st1 st'
        (fun x hx => hseg x (by simp [hx]))
        (fun x hx => hfld x (by simp [hx])) hInv1 hfold
      refine ⟨hInv', ?_⟩
      rw [hmain, hflush, hlead]
      simp only [List.map_cons]
      by_cases hc : st.currentId = some (leadingSeg item)
      · rw [if_pos hc]
        have hcg : consecGroups st.currentId (leadingSeg item :: rest.map leadingSeg) =
            consecGroups (some (leadingSeg item)) (rest.map leadingSeg) := by
          rw [consecGroups_cons, if_pos hc, hc]
        rw [hcg]
        simp
      · rw [if_neg hc]
        have hcg : consecGroups st.currentId (leadingSeg item :: rest.map leadingSeg) =
            leadingSeg item :: consecGroups (some (leadingSeg item)) (rest.map leadingSeg) := by
          rw [consecGroups_cons, if_neg hc]
        rw [hcg]
        simp

/-- **C5** — processing an ordered store dataset (whose keys all have an
identity segment plus at least one field segment, none of whose first
field segments collides with the identity attribute), `parse` groups
consecutive entries with equal leading identity segments into one
accumulated record each: an identity change flushes the previous
accumulator, the trailing accumulator is flushed at end of input, each
reconstructed record carries its group's identity under `idAttribute`,
and a dataset covering N distinct consecutive identities yields exactly
N reconstructed records. -/
theorem c5_parse_identity_grouping (idAttr : String) (ds : List StoreItem)
    (res : List JsObj)
    (hseg : ∀ item ∈ ds, 2 ≤ (jsSplitDot item.key).length)
    (hfld : ∀ item ∈ ds, (jsSplitDot item.key).tail.headD "" ≠ idAttr)
    (hok : parseResultset idAttr ds = Except.ok res) :
    res.length = (consecGroups none (ds.map leadingSeg)).length ∧
    res.map (fun r => objLookup r idAttr) =
      (consecGroups none (ds.map leadingSeg)).map
        (fun s => some (JSValue.vStr s)) := by
  unfold parseResultset at hok
  cases hfold : List.foldlM (stepParse idAttr) (⟨none, [], []⟩ : ParseState) ds with
  | error e =>
    rw [hfold] at hok
    simp [Bind.bind, Except.bind] at hok
  | ok st' =>
    rw [hfold] at hok
    simp only [Bind.bind, Except.bind, pure, Except.pure, Except.ok.injEq] at hok
    have hInit : ParseInv idAttr (⟨none, [], []⟩ : ParseState) := by
      unfold ParseInv
      exact ⟨fun _ => ⟨rfl, rfl⟩, fun c hc => Option.noConfusion hc⟩
    obtain ⟨hInv', hflush⟩ :=
      foldParse_flushIds idAttr ds ⟨none, [], []⟩ st' hseg hfld hInit hfold
    have hmap : res.map (fun r => objLookup r idAttr) = flushIds idAttr st' := by
      rw [← hok, List.map_append]
      unfold flushIds
      congr 1
      cases hcur : st'.currentId with
      | none =>
        obtain ⟨_, hcd⟩ := hInv'.1 hcur
        rw [hcd]
        simp
      | some c =>
        obtain ⟨hl, hne⟩ := hInv'.2 c hcur
        rw [if_neg (by simpa [List.isEmpty_iff] using hne)]
        simp [hl]
    have hinit0 : flushIds idAttr (⟨none, [], []⟩ : ParseState) = [] := rfl
    rw [hflush, hinit0, List.nil_append] at hmap
    constructor
    · have hlen := congrArg List.length hmap
      simpa using hlen
    · exact hmap

/-- Witness for C5 on a three-entry dataset covering two identity runs. -/
theorem c5_parse_identity_grouping_witness :
    parseResultset "testid"
      [⟨"0.a", JSValue.vStr "u"⟩, ⟨"0.b", JSValue.vStr "v"⟩,
        ⟨"1.a", JSValue.vStr "w"⟩] =
      Except.ok
        [[("testid", JSValue.vStr "0"), ("a", JSValue.vStr "u"),
            ("b", JSValue.vStr "v")],
          [("testid", JSValue.vStr "1"), ("a", JSValue.vStr "w")]] ∧
    ([[("testid", JSValue.vStr "0"), ("a", JSValue.vStr "u"),
        ("b", JSValue.vStr "v")],
      [("testid", JSValue.vStr "1"), ("a", JSValue.vStr "w")]] : List JsObj).length =
      2 := by
  have h := c5_parse_identity_grouping "testid"
    [⟨"0.a", JSValue.vStr "u"⟩, ⟨"0.b", JSValue.vStr "v"⟩,
      ⟨"1.a", JSValue.vStr "w"⟩]
    [[("testid", JSValue.vStr "0"), ("a", JSValue.vStr "u"),
        ("b", JSValue.vStr "v")],
      [("testid", JSValue.vStr "1"), ("a", JSValue.vStr "w")]]
    (by decide) (by decide) rfl
  exact ⟨rfl, h.1⟩
